import Mathlib

/-!
Shallow embedding of the libmp4 demuxer (`src/mp4_demux.c`) track-building
and query functions, with theorems checking the specification's claims.

Conventions of the embedding:
* C `uint32_t` / `uint64_t` values are `Nat` with explicit `% 2^32` /
  `% 2^64` at the arithmetic operations where the C code can wrap.
* The positioned file is a `List Nat` of bytes; `fread` of `size` bytes with
  `nmemb = 1` succeeds exactly when `size > 0` and the requested range lies
  inside the file (C11 7.21.8.1: `fread` returns 0 when `size` is 0).
* Fallible functions return `Except Err α`, where `Err` mirrors the negated
  errno constants used by the C code.
* The error-return macros (`MP4_RETURN_ERR_IF_FAILED`,
  `MP4_LOG_ERR_AND_RETURN_ERR_IF_FAILED`) live in `mp4_log.h`, which is not
  part of the sources; they are modelled from the spec: a failed condition
  returns the given error code, and the always-taken call sites in `else`
  branches (`track not found`, `buffer too small`) are unconditional error
  returns, per the spec's failure semantics (§4.6, §7).
-/

set_option autoImplicit false

namespace Mp4

/-- Error codes: the negated errno constants returned by the C code. -/
inductive Err where
  | einval
  | eexist
  | enomem
  | eio
  | eproto
  | enoent
  | enobufs
  | enosys
  deriving DecidableEq, Repr

/-- `2^32`, the modulus of C `uint32_t` arithmetic. -/
def U32 : Nat := 2 ^ 32

/-- `2^64`, the modulus of C `uint64_t` arithmetic. -/
def U64 : Nat := 2 ^ 64

/-- C `uint32_t` subtraction `a - b` with wrap-around. -/
def u32sub (a b : Nat) : Nat := (a + U32 - b % U32) % U32

/-- C `uint64_t` subtraction `a - b` with wrap-around. -/
def u64sub (a b : Nat) : Nat := (a + U64 - b % U64) % U64

/-- `#define MP4_MAC_TO_UNIX_EPOCH_OFFSET (0x7c25b080UL)` -/
def MP4_MAC_TO_UNIX_EPOCH_OFFSET : Nat := 0x7c25b080

/-- `#define MP4_CHAPTERS_MAX (100)`: declared capacity of the
`chaptersName` / `chaptersTime` arrays in `struct mp4_demux`. -/
def MP4_CHAPTERS_MAX : Nat := 100

/-- `#define MP4_REFERENCE_TYPE_DESCRIPTION 0x63647363` ("cdsc") -/
def MP4_REFERENCE_TYPE_DESCRIPTION : Nat := 0x63647363

/-- `#define MP4_REFERENCE_TYPE_CHAPTERS 0x63686170` ("chap") -/
def MP4_REFERENCE_TYPE_CHAPTERS : Nat := 0x63686170

/-- `enum mp4_track_type`. -/
inductive TrackType where
  | unknown
  | video
  | audio
  | hint
  | metadata
  | text
  | chapters
  deriving DecidableEq, Repr

/-- `enum mp4_metadata_cover_type`. -/
inductive CoverType where
  | jpeg
  | png
  | bmp
  deriving DecidableEq, Repr

/-- `struct mp4_time_to_sample_entry`. -/
structure SttsEntry where
  sampleCount : Nat
  sampleDelta : Nat
  deriving DecidableEq, Repr

/-- `struct mp4_sample_to_chunk_entry`. -/
structure StscEntry where
  firstChunk : Nat
  samplesPerChunk : Nat
  sampleDescriptionIndex : Nat
  deriving DecidableEq, Repr

/-- `struct mp4_track`: the fields used by track building and the sample
queries.  Table pointers are plain lists (their `*Count` fields are the
lengths recorded by the parsers); `metadata`, `ref` and `chapters` are
indices into the demux's track list instead of pointers. -/
structure Track where
  id : Nat
  typ : TrackType
  timescale : Nat
  duration : Nat
  creationTime : Nat
  modificationTime : Nat
  currentSample : Nat
  sampleCount : Nat
  sampleSize : List Nat
  sampleDecodingTime : List Nat
  sampleOffset : List Nat
  chunkCount : Nat
  chunkOffset : List Nat
  timeToSampleEntries : List SttsEntry
  syncSampleEntries : List Nat
  sampleToChunkEntries : List StscEntry
  referenceType : Nat
  referenceTrackId : Nat
  metadata : Option Nat
  ref : Option Nat
  chapters : Option Nat
  deriving DecidableEq, Repr

/-- An all-zero track record (the `calloc`ed initial state). -/
def emptyTrack : Track :=
  { id := 0, typ := TrackType.unknown, timescale := 0, duration := 0,
    creationTime := 0, modificationTime := 0, currentSample := 0,
    sampleCount := 0, sampleSize := [], sampleDecodingTime := [],
    sampleOffset := [], chunkCount := 0, chunkOffset := [],
    timeToSampleEntries := [], syncSampleEntries := [],
    sampleToChunkEntries := [], referenceType := 0, referenceTrackId := 0,
    metadata := none, ref := none, chapters := none }

/-! ### `mp4_demux_build_tracks`: stsc expansion (first loop, lines 2551-2563)

The first pass accumulates `sampleCount += chunkCount * lastSamplesPerChunk`
per stsc entry, in `uint32_t` arithmetic, with
`chunkCount = entry.firstChunk - lastFirstChunk` and a final run of
`tk->chunkCount - lastFirstChunk + 1` chunks. -/

def stscCountAux (chunkCount : Nat) :
    List StscEntry → Nat → Nat → Nat → Nat
  | [], lastFirst, lastSpc, acc =>
      (acc + (u32sub chunkCount lastFirst + 1) * lastSpc) % U32
  | e :: es, lastFirst, lastSpc, acc =>
      stscCountAux chunkCount es e.firstChunk e.samplesPerChunk
        ((acc + u32sub e.firstChunk lastFirst * lastSpc) % U32)

/-- The sample count obtained by expanding the stsc entries against the
chunk count, as computed by the first loop of `mp4_demux_build_tracks`. -/
def stscExpandedCount (entries : List StscEntry) (chunkCount : Nat) : Nat :=
  stscCountAux chunkCount entries 1 0 0

/-- Sum of the stts entries' `sampleCount` fields in `uint32_t` arithmetic
(`mp4_demux_build_tracks`, lines 2605-2607). -/
def sttsTotalCount (entries : List SttsEntry) : Nat :=
  entries.foldl (fun acc e => (acc + e.sampleCount) % U32) 0

/-! ### `mp4_demux_build_tracks`: sample-offset fill (second loop, 2574-2603)

The innermost loop writes, for each of the `lastSamplesPerChunk` samples of
the current chunk, `sampleOffset[n] = chunkOffset[chunkIdx] + offsetInChunk`
and advances `offsetInChunk` by `sampleSize[n]`, in `uint64_t` arithmetic. -/

def fillChunkSamples (sizes : List Nat) (chunkOff : Nat) :
    Nat → Nat → Nat → List Nat
  | 0, _, _ => []
  | k + 1, n, offInChunk =>
      (chunkOff + offInChunk) % U64 ::
        fillChunkSamples sizes chunkOff k (n + 1)
          ((offInChunk + sizes.getD n 0) % U64)

/-- The middle loop (`for j in 0..chunkCount`): fill `cnt` consecutive
chunks of `spc` samples each, starting at chunk `chunkIdx`, sample `n`. -/
def fillRun (sizes chunkOffs : List Nat) (spc : Nat) :
    Nat → Nat → Nat → List Nat
  | 0, _, _ => []
  | j + 1, chunkIdx, n =>
      fillChunkSamples sizes (chunkOffs.getD chunkIdx 0) spc n 0 ++
        fillRun sizes chunkOffs spc j (chunkIdx + 1) (n + spc)

/-- The outer loop over the stsc entries, followed by the final run of
`tk->chunkCount - lastFirstChunk + 1` chunks (lines 2576-2603). -/
def fillEntries (sizes chunkOffs : List Nat) (chunkCount : Nat) :
    List StscEntry → Nat → Nat → Nat → Nat → List Nat
  | [], lastFirst, lastSpc, chunkIdx, n =>
      fillRun sizes chunkOffs lastSpc ((u32sub chunkCount lastFirst + 1) % U32)
        chunkIdx n
  | e :: es, lastFirst, lastSpc, chunkIdx, n =>
      fillRun sizes chunkOffs lastSpc (u32sub e.firstChunk lastFirst)
        chunkIdx n ++
        fillEntries sizes chunkOffs chunkCount es e.firstChunk
          e.samplesPerChunk (chunkIdx + u32sub e.firstChunk lastFirst)
          (n + u32sub e.firstChunk lastFirst * lastSpc)

/-! ### `mp4_demux_build_tracks`: decoding times (lines 2619-2626) -/

def emitTimes (delta : Nat) : Nat → Nat → List Nat
  | 0, _ => []
  | k + 1, ts => ts :: emitTimes delta k ((ts + delta) % U64)

def fillTimes : List SttsEntry → Nat → List Nat
  | [], _ => []
  | e :: es, ts =>
      emitTimes e.sampleDelta e.sampleCount ts ++
        fillTimes es ((ts + e.sampleCount * e.sampleDelta) % U64)

/-- Per-track part of `mp4_demux_build_tracks` (lines 2549-2626): the two
sample-count consistency checks (each failing with `-EPROTO`) and the
construction of `sampleOffset` and `sampleDecodingTime`. -/
def buildTrack (tk : Track) : Except Err Track :=
  if stscExpandedCount tk.sampleToChunkEntries tk.chunkCount = tk.sampleCount
  then
    if sttsTotalCount tk.timeToSampleEntries = tk.sampleCount then
      Except.ok
        { tk with
          sampleOffset :=
            fillEntries tk.sampleSize tk.chunkOffset tk.chunkCount
              tk.sampleToChunkEntries 1 0 0 0,
          sampleDecodingTime := fillTimes tk.timeToSampleEntries 0 }
    else Except.error Err.eproto
  else Except.error Err.eproto

/-- The `for (tk = demux->track; tk; tk = tk->next)` iteration of the
per-track builder; the first failing track aborts. -/
def buildAllTracks : List Track → Except Err (List Track)
  | [] => Except.ok []
  | t :: ts =>
      Except.bind (buildTrack t) (fun t2 =>
        Except.bind (buildAllTracks ts) (fun ts2 => Except.ok (t2 :: ts2)))

/-! ### `mp4_demux_build_tracks`: track linking (lines 2628-2686)

The loop counts tracks by type and resolves `tref` links; the counters and
the `videoTk` / `metaTk` / `chapTk` pointers become indices here.  List
mutations through a pointer (`tkRef->metadata = tk`, …) become `List.set`
on the state's track list. -/

structure LinkState where
  tracks : List Track
  videoTrackCount : Nat
  audioTrackCount : Nat
  hintTrackCount : Nat
  metadataTrackCount : Nat
  textTrackCount : Nat
  videoIdx : Option Nat
  metaIdx : Option Nat
  chapIdx : Option Nat
  deriving Repr

/-- `for (tkRef = demux->track; tkRef; tkRef = tkRef->next)
    if (tkRef->id == tk->referenceTrackId) break;` -/
def findTrackIdxById (tracks : List Track) (tid : Nat) : Option Nat :=
  tracks.findIdx? (fun t => t.id == tid)

/-- One iteration of the linking part of the per-track loop, for the track
at index `i` (the `switch (tk->type)` counters then the `tref` link). -/
def linkStep (s : LinkState) (i : Nat) : LinkState :=
  match s.tracks.get? i with
  | none => s
  | some tk =>
    let s1 :=
      match tk.typ with
      | TrackType.video =>
          { s with videoTrackCount := s.videoTrackCount + 1, videoIdx := some i }
      | TrackType.audio => { s with audioTrackCount := s.audioTrackCount + 1 }
      | TrackType.hint => { s with hintTrackCount := s.hintTrackCount + 1 }
      | TrackType.metadata =>
          { s with metadataTrackCount := s.metadataTrackCount + 1,
                   metaIdx := some i }
      | TrackType.text => { s with textTrackCount := s.textTrackCount + 1 }
      | _ => s
    if tk.referenceType ≠ 0 ∧ tk.referenceTrackId ≠ 0 then
      match findTrackIdxById s1.tracks tk.referenceTrackId with
      | none => s1
      | some j =>
        if tk.referenceType = MP4_REFERENCE_TYPE_DESCRIPTION ∧
            tk.typ = TrackType.metadata then
          let ts1 := s1.tracks.set j
            { (s1.tracks.getD j emptyTrack) with metadata := some i }
          let ts2 := ts1.set i
            { (ts1.getD i emptyTrack) with ref := some j }
          { s1 with tracks := ts2 }
        else if tk.referenceType = MP4_REFERENCE_TYPE_CHAPTERS ∧
            (s1.tracks.getD j emptyTrack).typ = TrackType.text then
          let ts1 := s1.tracks.set i
            { (s1.tracks.getD i emptyTrack) with chapters := some j }
          let ts2 := ts1.set j
            { (ts1.getD j emptyTrack) with
              ref := some i, typ := TrackType.chapters }
          { s1 with tracks := ts2, chapIdx := some j }
        else s1
    else s1

/-- The whole linking loop over the track list. -/
def linkAll (tracks : List Track) : LinkState :=
  (List.range tracks.length).foldl linkStep
    { tracks := tracks, videoTrackCount := 0, audioTrackCount := 0,
      hintTrackCount := 0, metadataTrackCount := 0, textTrackCount := 0,
      videoIdx := none, metaIdx := none, chapIdx := none }

/-- The workaround after the loop (lines 2679-2686): a lone video track and
a lone metadata track with no existing link are linked as if by `cdsc`. -/
def applyWorkaround (s : LinkState) : List Track :=
  if s.videoTrackCount = 1 ∧ s.metadataTrackCount = 1 ∧
      s.audioTrackCount = 0 ∧ s.hintTrackCount = 0 then
    match s.videoIdx, s.metaIdx with
    | some vi, some mi =>
        if (s.tracks.getD vi emptyTrack).metadata = none then
          (s.tracks.set vi
            { (s.tracks.getD vi emptyTrack) with metadata := some mi }).set mi
            { (s.tracks.getD mi emptyTrack) with ref := some vi }
        else s.tracks
    | _, _ => s.tracks
  else s.tracks

/-! ### File reads and the chapter list (lines 2688-2729) -/

/-- `fseeko(file, off, SEEK_SET)` followed by `fread(buf, sz, 1, file)`:
the read succeeds (`count == 1`) exactly when `sz > 0` and the range lies
inside the file (`fread` returns 0 complete elements otherwise). -/
def readBytesAt (file : List Nat) (off sz : Nat) : Except Err (List Nat) :=
  if 0 < sz ∧ off + sz ≤ file.length then
    Except.ok ((file.drop off).take sz)
  else Except.error Err.eio

/-- Rounded ticks-to-microseconds conversion
`(ticks * 1000000 + timescale / 2) / timescale` in `uint64_t` arithmetic. -/
def ticksToUs (ticks timescale : Nat) : Nat :=
  ((ticks * 1000000) % U64 + timescale / 2) % U64 / timescale

/-- The chapter loop body over the given sample indices of the chapter
track: read a big-endian `uint16` length at the sample's offset, and when
`sz <= sampleSize - readBytes` (C unsigned arithmetic, `readBytes = 2`)
read the name and record `(chapTime, name)`; otherwise skip the sample
silently.  The returned list position of an entry is the `chaptersCount`
write index used for `chaptersName[]` / `chaptersTime[]`. -/
def chaptersGo (file : List Nat) (tk : Track) :
    List Nat → Except Err (List (Nat × List Nat))
  | [] => Except.ok []
  | i :: is =>
      Except.bind (readBytesAt file (tk.sampleOffset.getD i 0) 2)
        (fun szBytes =>
          if szBytes.getD 0 0 * 256 + szBytes.getD 1 0 ≤
              u32sub (tk.sampleSize.getD i 0) 2 then
            Except.bind
              (readBytesAt file (tk.sampleOffset.getD i 0 + 2)
                (szBytes.getD 0 0 * 256 + szBytes.getD 1 0))
              (fun name =>
                Except.bind (chaptersGo file tk is)
                  (fun rest =>
                    Except.ok
                      ((ticksToUs (tk.sampleDecodingTime.getD i 0)
                          tk.timescale, name) :: rest)))
          else chaptersGo file tk is)

/-- `if (chapTk) { for (i = 0; i < chapTk->sampleCount; i++) ... }` -/
def buildChapters (file : List Nat) (tk : Track) :
    Except Err (List (Nat × List Nat)) :=
  chaptersGo file tk (List.range tk.sampleCount)

/-- `mp4_demux_build_tracks`: per-track builds, linking, workaround, and
the chapter list.  Returns the final track list and the chapter list. -/
def mp4_demux_build_tracks (tracks : List Track) (file : List Nat) :
    Except Err (List Track × List (Nat × List Nat)) :=
  Except.bind (buildAllTracks tracks) (fun built =>
    match (linkAll built).chapIdx with
    | none => Except.ok (applyWorkaround (linkAll built), [])
    | some ci =>
        Except.bind
          (buildChapters file
            ((applyWorkaround (linkAll built)).getD ci emptyTrack))
          (fun chs => Except.ok (applyWorkaround (linkAll built), chs)))

/-! ### `struct mp4_demux` and the public query surface -/

/-- The fields of `struct mp4_demux` consulted by the modelled queries.
`trackCount` equals the length of the track list by construction of the
parser (one list node per `trak` box), so it is not duplicated.  The file
size is `file.length`. -/
structure Demux where
  file : List Nat
  tracks : List Track
  timescale : Nat
  duration : Nat
  creationTime : Nat
  modificationTime : Nat
  udtaCoverOffset : Nat
  udtaCoverSize : Nat
  udtaCoverType : CoverType
  metaCoverOffset : Nat
  metaCoverSize : Nat
  metaCoverType : CoverType
  deriving DecidableEq, Repr

/-- `struct mp4_media_info`. -/
structure MediaInfo where
  duration : Nat
  creation_time : Nat
  modification_time : Nat
  track_count : Nat
  deriving DecidableEq, Repr

/-- `mp4_demux_get_media_info` (lines 3068-3087): note lines 3080-3083
compute both returned times from `demux->creationTime`. -/
def mp4_demux_get_media_info (d : Demux) : MediaInfo :=
  { duration := ticksToUs d.duration d.timescale,
    creation_time := u64sub d.creationTime MP4_MAC_TO_UNIX_EPOCH_OFFSET,
    modification_time := u64sub d.creationTime MP4_MAC_TO_UNIX_EPOCH_OFFSET,
    track_count := d.tracks.length }

/-- The fields of `struct mp4_track_info` needed by the claims. -/
structure TrackInfo where
  id : Nat
  typ : TrackType
  duration : Nat
  creation_time : Nat
  modification_time : Nat
  sample_count : Nat
  has_metadata : Bool
  deriving DecidableEq, Repr

/-- `mp4_demux_get_track_info` (lines 3099-3157): the
`track_idx < demux->trackCount` guard fails with `-EINVAL`; the walk then
selects the `track_idx`-th list node (`-ENOENT` if the walk ran out, which
cannot happen once the guard passed). -/
def mp4_demux_get_track_info (d : Demux) (track_idx : Nat) :
    Except Err TrackInfo :=
  if track_idx < d.tracks.length then
    match d.tracks.get? track_idx with
    | some tk =>
        Except.ok
          { id := tk.id, typ := tk.typ,
            duration := ticksToUs tk.duration tk.timescale,
            creation_time := u64sub tk.creationTime MP4_MAC_TO_UNIX_EPOCH_OFFSET,
            modification_time :=
              u64sub tk.creationTime MP4_MAC_TO_UNIX_EPOCH_OFFSET,
            sample_count := tk.sampleCount,
            has_metadata := tk.metadata.isSome }
    | none => Except.error Err.enoent
  else Except.error Err.einval

/-- Final cover selection in `mp4_demux_build_metadata` (lines 2807-2815):
the meta cover when `metaCoverSize > 0`, else the udta cover when
`udtaCoverSize > 0`, else the `memset` zero state (`none`). -/
def buildFinalCover (d : Demux) : Option (Nat × Nat × CoverType) :=
  if 0 < d.metaCoverSize then
    some (d.metaCoverOffset, d.metaCoverSize, d.metaCoverType)
  else if 0 < d.udtaCoverSize then
    some (d.udtaCoverOffset, d.udtaCoverSize, d.udtaCoverType)
  else none

/-- `mp4_demux_get_metadata_cover` (lines 3332-3368), after
`buildFinalCover`: reports `(cover_size, cover_type)` and optionally fills
a caller buffer; returns size 0 when no cover was selected. -/
def mp4_demux_get_metadata_cover (d : Demux) (buf : Option Nat) :
    Except Err (Nat × Option CoverType × Option (List Nat)) :=
  match buildFinalCover d with
  | some (off, sz, ty) =>
      match buf with
      | some bs =>
          if sz ≤ bs then do
            let bytes ← readBytesAt d.file off sz
            Except.ok (sz, some ty, some bytes)
          else Except.error Err.enobufs
      | none => Except.ok (sz, some ty, none)
  | none => Except.ok (0, none, none)

/-- `struct mp4_track_sample`. -/
structure TrackSample where
  sample_size : Nat
  metadata_size : Nat
  sample_dts : Nat
  next_sample_dts : Nat
  deriving DecidableEq, Repr

/-- The `memset(track_sample, 0, sizeof(*track_sample))` state. -/
def zeroTrackSample : TrackSample :=
  { sample_size := 0, metadata_size := 0, sample_dts := 0,
    next_sample_dts := 0 }

/-- Lines 3233-3253: if a sample buffer was provided and the sample fits,
seek and read it (`-EIO` on a failed read); if a sample buffer was provided
and the sample does not fit, fail with `-ENOBUFS`; with no buffer, read
nothing. -/
def sampleBufStep (file : List Nat) (off ssize : Nat) (buf : Option Nat) :
    Except Err (Option (List Nat)) :=
  match buf with
  | some bs =>
      if ssize ≤ bs then (readBytesAt file off ssize).map some
      else Except.error Err.enobufs
  | none => Except.ok none

/-- Lines 3259-3278: if a metadata buffer was provided and the metadata
sample fits, seek and read it; otherwise read nothing — there is no
buffer-too-small error branch on this path. -/
def metadataBufStep (file : List Nat) (off msize : Nat) (buf : Option Nat) :
    Except Err (Option (List Nat)) :=
  match buf with
  | some ms =>
      if msize ≤ ms then (readBytesAt file off msize).map some
      else Except.ok none
  | none => Except.ok none

/-- Lines 3254-3279: when the track has a linked metadata track, report
that track's sample size at the reference track's cursor and optionally
read the bytes; otherwise the `memset` zero `metadata_size` stands. -/
def metadataStep (d : Demux) (cur : Nat) (mref : Option Nat)
    (buf : Option Nat) : Except Err (Nat × Option (List Nat)) :=
  match mref with
  | some mi =>
      Except.bind
        (metadataBufStep d.file
          ((d.tracks.getD mi emptyTrack).sampleOffset.getD cur 0)
          ((d.tracks.getD mi emptyTrack).sampleSize.getD cur 0) buf)
        (fun mOut =>
          Except.ok ((d.tracks.getD mi emptyTrack).sampleSize.getD cur 0,
            mOut))
  | none => Except.ok (0, none)

/-- `tk->currentSample++` (line 3287) as a demux update. -/
def advanceCursor (d : Demux) (i : Nat) (tk : Track) : Demux :=
  { d with tracks :=
      d.tracks.set i { tk with currentSample := tk.currentSample + 1 } }

/-- `mp4_demux_get_track_next_sample` (lines 3202-3291).  `sampleBuf` /
`metadataBuf` are the sizes of the caller's buffers when provided; the
returned options are the bytes copied into them (`none` = not filled).
The final `Demux` carries the advanced `currentSample` cursor. -/
def mp4_demux_get_track_next_sample (d : Demux) (track_id : Nat)
    (sampleBuf metadataBuf : Option Nat) :
    Except Err (TrackSample × Option (List Nat) × Option (List Nat) × Demux) :=
  match findTrackIdxById d.tracks track_id with
  | none => Except.error Err.enoent
  | some i =>
    let tk := d.tracks.getD i emptyTrack
    if tk.currentSample < tk.sampleCount then
      Except.bind
        (sampleBufStep d.file (tk.sampleOffset.getD tk.currentSample 0)
          (tk.sampleSize.getD tk.currentSample 0) sampleBuf)
        (fun sOut =>
          Except.bind
            (metadataStep d tk.currentSample tk.metadata metadataBuf)
            (fun m =>
              Except.ok
                ({ sample_size := tk.sampleSize.getD tk.currentSample 0,
                   metadata_size := m.1,
                   sample_dts :=
                     ticksToUs (tk.sampleDecodingTime.getD tk.currentSample 0)
                       tk.timescale,
                   next_sample_dts :=
                     if tk.currentSample < tk.sampleCount - 1 then
                       ticksToUs
                         (tk.sampleDecodingTime.getD (tk.currentSample + 1) 0)
                         tk.timescale
                     else 0 },
                 sOut, m.2, advanceCursor d i tk)))
    else Except.ok (zeroTrackSample, none, none, d)

/-! ### Sample-table box parsers (`mp4_demux_parse_stts` … `_co64`)

Each parser reads from the positioned file (here: the byte list from the
current position), checks that its table pointer is still `NULL`
(`-EEXIST` otherwise), validates `maxBytes` against the declared minimum
and the entry count (`-EINVAL`), and fills the track's table.  `MP4_READ_32`
fails with `-EIO` when the file runs out. -/

/-- The parse-time table state of `struct mp4_track`: `none` models a
`NULL` table pointer. -/
structure PTrack where
  timeToSampleEntryCount : Nat
  timeToSampleEntries : Option (List SttsEntry)
  syncSampleEntryCount : Nat
  syncSampleEntries : Option (List Nat)
  sampleCount : Nat
  sampleSize : Option (List Nat)
  sampleToChunkEntryCount : Nat
  sampleToChunkEntries : Option (List StscEntry)
  chunkCount : Nat
  chunkOffset : Option (List Nat)
  deriving DecidableEq, Repr

/-- The `calloc`ed all-`NULL` track allocated when a `trak` box opens. -/
def initPTrack : PTrack :=
  { timeToSampleEntryCount := 0, timeToSampleEntries := none,
    syncSampleEntryCount := 0, syncSampleEntries := none,
    sampleCount := 0, sampleSize := none,
    sampleToChunkEntryCount := 0, sampleToChunkEntries := none,
    chunkCount := 0, chunkOffset := none }

/-- `MP4_READ_32` + `ntohl`: four big-endian bytes. -/
def read32 : List Nat → Except Err (Nat × List Nat)
  | b0 :: b1 :: b2 :: b3 :: rest =>
      Except.ok (((b0 * 256 + b1) * 256 + b2) * 256 + b3, rest)
  | _ => Except.error Err.eio

/-- `n` consecutive 32-bit big-endian reads. -/
def readU32s : Nat → List Nat → Except Err (List Nat × List Nat)
  | 0, bytes => Except.ok ([], bytes)
  | n + 1, bytes => do
      let (v, b1) ← read32 bytes
      let (vs, b2) ← readU32s n b1
      Except.ok (v :: vs, b2)

/-- The stts entry loop: `sample_count`, `sample_delta` per entry. -/
def readSttsEntries : Nat → List Nat → Except Err (List SttsEntry × List Nat)
  | 0, bytes => Except.ok ([], bytes)
  | n + 1, bytes => do
      let (c, b1) ← read32 bytes
      let (dl, b2) ← read32 b1
      let (es, b3) ← readSttsEntries n b2
      Except.ok ({ sampleCount := c, sampleDelta := dl } :: es, b3)

/-- The stsc entry loop: `first_chunk`, `samples_per_chunk`,
`sample_description_index` per entry. -/
def readStscEntries : Nat → List Nat → Except Err (List StscEntry × List Nat)
  | 0, bytes => Except.ok ([], bytes)
  | n + 1, bytes => do
      let (f, b1) ← read32 bytes
      let (s, b2) ← read32 b1
      let (di, b3) ← read32 b2
      let (es, b4) ← readStscEntries n b3
      Except.ok ({ firstChunk := f, samplesPerChunk := s,
                   sampleDescriptionIndex := di } :: es, b4)

/-- The co64 entry loop: two 32-bit reads composing a 64-bit offset. -/
def readU64s : Nat → List Nat → Except Err (List Nat × List Nat)
  | 0, bytes => Except.ok ([], bytes)
  | n + 1, bytes => do
      let (hi, b1) ← read32 bytes
      let (lo, b2) ← read32 b1
      let (vs, b3) ← readU64s n b2
      Except.ok ((hi * U32 + lo) :: vs, b3)

/-- `mp4_demux_parse_stts` (lines 1420-1480). -/
def mp4_demux_parse_stts (tk : PTrack) (bytes : List Nat) (maxBytes : Nat) :
    Except Err PTrack :=
  match tk.timeToSampleEntries with
  | some _ => Except.error Err.eexist
  | none =>
    if maxBytes < 8 then Except.error Err.einval
    else
      Except.bind (read32 bytes) (fun p1 =>
        Except.bind (read32 p1.2) (fun p2 =>
          if maxBytes < (8 + p2.1 * 8) % U32 then Except.error Err.einval
          else
            Except.bind (readSttsEntries p2.1 p2.2) (fun pe =>
              Except.ok { tk with timeToSampleEntryCount := p2.1,
                                  timeToSampleEntries := some pe.1 })))

/-- `mp4_demux_parse_stss` (lines 1483-1537). -/
def mp4_demux_parse_stss (tk : PTrack) (bytes : List Nat) (maxBytes : Nat) :
    Except Err PTrack :=
  match tk.syncSampleEntries with
  | some _ => Except.error Err.eexist
  | none =>
    if maxBytes < 8 then Except.error Err.einval
    else
      Except.bind (read32 bytes) (fun p1 =>
        Except.bind (read32 p1.2) (fun p2 =>
          if maxBytes < (8 + p2.1 * 4) % U32 then Except.error Err.einval
          else
            Except.bind (readU32s p2.1 p2.2) (fun pe =>
              Except.ok { tk with syncSampleEntryCount := p2.1,
                                  syncSampleEntries := some pe.1 })))

/-- `mp4_demux_parse_stsz` (lines 1540-1603). -/
def mp4_demux_parse_stsz (tk : PTrack) (bytes : List Nat) (maxBytes : Nat) :
    Except Err PTrack :=
  match tk.sampleSize with
  | some _ => Except.error Err.eexist
  | none =>
    if maxBytes < 12 then Except.error Err.einval
    else
      Except.bind (read32 bytes) (fun p1 =>
        Except.bind (read32 p1.2) (fun p2 =>
          Except.bind (read32 p2.2) (fun p3 =>
            if p2.1 = 0 then
              if maxBytes < (12 + p3.1 * 4) % U32 then
                Except.error Err.einval
              else
                Except.bind (readU32s p3.1 p3.2) (fun ps =>
                  Except.ok { tk with sampleCount := p3.1,
                                      sampleSize := some ps.1 })
            else
              Except.ok { tk with
                sampleCount := p3.1,
                sampleSize := some (List.replicate p3.1 p2.1) })))

/-- `mp4_demux_parse_stsc` (lines 1606-1677). -/
def mp4_demux_parse_stsc (tk : PTrack) (bytes : List Nat) (maxBytes : Nat) :
    Except Err PTrack :=
  match tk.sampleToChunkEntries with
  | some _ => Except.error Err.eexist
  | none =>
    if maxBytes < 8 then Except.error Err.einval
    else
      Except.bind (read32 bytes) (fun p1 =>
        Except.bind (read32 p1.2) (fun p2 =>
          if maxBytes < (8 + p2.1 * 12) % U32 then Except.error Err.einval
          else
            Except.bind (readStscEntries p2.1 p2.2) (fun pe =>
              Except.ok { tk with sampleToChunkEntryCount := p2.1,
                                  sampleToChunkEntries := some pe.1 })))

/-- `mp4_demux_parse_stco` (lines 1680-1732). -/
def mp4_demux_parse_stco (tk : PTrack) (bytes : List Nat) (maxBytes : Nat) :
    Except Err PTrack :=
  match tk.chunkOffset with
  | some _ => Except.error Err.eexist
  | none =>
    if maxBytes < 8 then Except.error Err.einval
    else
      Except.bind (read32 bytes) (fun p1 =>
        Except.bind (read32 p1.2) (fun p2 =>
          if maxBytes < (8 + p2.1 * 4) % U32 then Except.error Err.einval
          else
            Except.bind (readU32s p2.1 p2.2) (fun po =>
              Except.ok { tk with chunkCount := p2.1,
                                  chunkOffset := some po.1 })))

/-- `mp4_demux_parse_co64` (lines 1735-1789). -/
def mp4_demux_parse_co64 (tk : PTrack) (bytes : List Nat) (maxBytes : Nat) :
    Except Err PTrack :=
  match tk.chunkOffset with
  | some _ => Except.error Err.eexist
  | none =>
    if maxBytes < 8 then Except.error Err.einval
    else
      Except.bind (read32 bytes) (fun p1 =>
        Except.bind (read32 p1.2) (fun p2 =>
          if maxBytes < (8 + p2.1 * 8) % U32 then Except.error Err.einval
          else
            Except.bind (readU64s p2.1 p2.2) (fun po =>
              Except.ok { tk with chunkCount := p2.1,
                                  chunkOffset := some po.1 })))

/-- A sample-table child box of one `stbl`, as dispatched by the `switch`
in `mp4_demux_parse_children`: its type, its payload bytes and its
`realBoxSize - boxReadBytes` budget. -/
inductive SBoxKind where
  | stts
  | stss
  | stsz
  | stsc
  | stco
  | co64
  deriving DecidableEq, Repr

structure SBox where
  kind : SBoxKind
  payload : List Nat
  maxBytes : Nat
  deriving DecidableEq, Repr

/-- The dispatch of `mp4_demux_parse_children` for one sample-table box. -/
def parseSampleBox (tk : PTrack) (b : SBox) : Except Err PTrack :=
  match b.kind with
  | SBoxKind.stts => mp4_demux_parse_stts tk b.payload b.maxBytes
  | SBoxKind.stss => mp4_demux_parse_stss tk b.payload b.maxBytes
  | SBoxKind.stsz => mp4_demux_parse_stsz tk b.payload b.maxBytes
  | SBoxKind.stsc => mp4_demux_parse_stsc tk b.payload b.maxBytes
  | SBoxKind.stco => mp4_demux_parse_stco tk b.payload b.maxBytes
  | SBoxKind.co64 => mp4_demux_parse_co64 tk b.payload b.maxBytes

/-- The loop of `mp4_demux_parse_children` restricted to the sample-table
children of one `trak`: boxes are handled in document order and a handler
error aborts the parse (and hence the whole `open`). -/
def parseSampleBoxes : PTrack → List SBox → Except Err PTrack
  | tk, [] => Except.ok tk
  | tk, b :: bs =>
      Except.bind (parseSampleBox tk b) (fun tk2 => parseSampleBoxes tk2 bs)

instance {ε α : Type} [DecidableEq ε] [DecidableEq α] :
    DecidableEq (Except ε α) := fun x y =>
  match x, y with
  | Except.ok a, Except.ok b =>
      if h : a = b then isTrue (by rw [h])
      else isFalse (fun hh => h (Except.ok.inj hh))
  | Except.ok _, Except.error _ => isFalse (fun hh => Except.noConfusion hh)
  | Except.error _, Except.ok _ => isFalse (fun hh => Except.noConfusion hh)
  | Except.error e, Except.error f =>
      if h : e = f then isTrue (by rw [h])
      else isFalse (fun hh => h (Except.error.inj hh))

/-! ### C4: `media_info` modification time -/

/-- A demux whose parsed mvhd `modificationTime` differs from its
`creationTime`: `creationTime` is the 1904→1970 offset itself and
`modificationTime` is one second later. -/
def c4Demux : Demux :=
  { file := [], tracks := [], timescale := 1, duration := 0,
    creationTime := 0x7c25b080, modificationTime := 0x7c25b081,
    udtaCoverOffset := 0, udtaCoverSize := 0,
    udtaCoverType := CoverType.jpeg,
    metaCoverOffset := 0, metaCoverSize := 0,
    metaCoverType := CoverType.jpeg }

/-- C4: `media_info` is claimed to return `modification_time_unix` equal to
the parsed mvhd `modification_time` minus `0x7C25B080`.  The code instead
copies `creationTime` (line 3082-3083): on `c4Demux` it returns 0 where the
parsed `modificationTime` field converts to 1. -/
theorem mediaInfo_modification_time_is_creation_time :
    (mp4_demux_get_media_info c4Demux).modification_time = 0 ∧
    u64sub c4Demux.modificationTime MP4_MAC_TO_UNIX_EPOCH_OFFSET = 1 ∧
    (mp4_demux_get_media_info c4Demux).modification_time ≠
      u64sub c4Demux.modificationTime MP4_MAC_TO_UNIX_EPOCH_OFFSET := by
  refine ⟨by decide, by decide, by decide⟩

/-! ### C5: `track_info` on an out-of-range index -/

/-- C5 (amended): for `idx ≥ track_count`, `mp4_demux_get_track_info`
fails with `-EINVAL` (the `Invalid` error), not `-ENOENT` (`NotFound`);
being a pure query, it leaves the demux unchanged. -/
theorem trackInfo_out_of_range_einval (d : Demux) (idx : Nat)
    (h : d.tracks.length ≤ idx) :
    mp4_demux_get_track_info d idx = Except.error Err.einval := by
  unfold mp4_demux_get_track_info
  rw [if_neg (by omega)]

/-- A demux with exactly one track. -/
def c5Demux : Demux := { c4Demux with tracks := [emptyTrack] }

theorem trackInfo_out_of_range_einval_witness :
    c5Demux.tracks.length ≤ 1 ∧
    mp4_demux_get_track_info c5Demux 1 = Except.error Err.einval :=
  ⟨by decide, trackInfo_out_of_range_einval c5Demux 1 (by decide)⟩

/-- C5 counterexample: on a demux with `track_count = 1`, `track_info 1`
does not fail with the NotFound error (`-ENOENT`) as claimed; it fails
with `-EINVAL`. -/
theorem trackInfo_out_of_range_not_enoent :
    mp4_demux_get_track_info c5Demux 1 ≠ Except.error Err.enoent ∧
    mp4_demux_get_track_info c5Demux 1 = Except.error Err.einval := by
  refine ⟨by decide, by decide⟩

/-! ### C7: cover selection prefers the meta cover -/

/-- C7: when a meta cover was recorded (`metaCoverSize > 0`), the final
cover is the meta cover — its offset, size and kind — regardless of any
udta cover, and `metadata_cover` reports that size and kind; the udta
cover is selected only when no meta cover is present. -/
theorem cover_selection_prefers_meta (d : Demux) :
    (0 < d.metaCoverSize →
      buildFinalCover d =
        some (d.metaCoverOffset, d.metaCoverSize, d.metaCoverType) ∧
      mp4_demux_get_metadata_cover d none =
        Except.ok (d.metaCoverSize, some d.metaCoverType, none)) ∧
    (d.metaCoverSize = 0 → 0 < d.udtaCoverSize →
      buildFinalCover d =
        some (d.udtaCoverOffset, d.udtaCoverSize, d.udtaCoverType) ∧
      mp4_demux_get_metadata_cover d none =
        Except.ok (d.udtaCoverSize, some d.udtaCoverType, none)) := by
  constructor
  · intro hm
    have hc : buildFinalCover d =
        some (d.metaCoverOffset, d.metaCoverSize, d.metaCoverType) := by
      unfold buildFinalCover
      rw [if_pos hm]
    refine ⟨hc, ?_⟩
    unfold mp4_demux_get_metadata_cover
    rw [hc]
  · intro hm hu
    have hc : buildFinalCover d =
        some (d.udtaCoverOffset, d.udtaCoverSize, d.udtaCoverType) := by
      unfold buildFinalCover
      rw [if_neg (by omega), if_pos hu]
    refine ⟨hc, ?_⟩
    unfold mp4_demux_get_metadata_cover
    rw [hc]

/-- A demux with both a meta cover (PNG at offset 70, 2 bytes) and a udta
cover (JPEG at offset 30, 3 bytes). -/
def c7DemuxBoth : Demux :=
  { c4Demux with
    udtaCoverOffset := 30, udtaCoverSize := 3,
    udtaCoverType := CoverType.jpeg,
    metaCoverOffset := 70, metaCoverSize := 2,
    metaCoverType := CoverType.png }

/-- The same demux with no meta cover recorded. -/
def c7DemuxUdta : Demux := { c7DemuxBoth with metaCoverSize := 0 }

theorem cover_selection_prefers_meta_witness :
    (0 < c7DemuxBoth.metaCoverSize ∧
      buildFinalCover c7DemuxBoth = some (70, 2, CoverType.png)) ∧
    (c7DemuxUdta.metaCoverSize = 0 ∧ 0 < c7DemuxUdta.udtaCoverSize ∧
      buildFinalCover c7DemuxUdta = some (30, 3, CoverType.jpeg)) :=
  ⟨⟨by decide, ((cover_selection_prefers_meta c7DemuxBoth).1 (by decide)).1⟩,
   ⟨by decide, by decide,
    ((cover_selection_prefers_meta c7DemuxUdta).2 (by decide) (by decide)).1⟩⟩

/-! ### C8 / C10: `next_sample` -/

theorem bind_ok_ex {ε α β : Type} {x : Except ε α} {f : α → Except ε β}
    {b : β} (h : Except.bind x f = Except.ok b) :
    ∃ a, x = Except.ok a ∧ f a = Except.ok b := by
  cases x with
  | ok a => exact ⟨a, rfl, h⟩
  | error e => exact Except.noConfusion h

/-- C8: with the cursor at `sample_count`, `next_sample` succeeds with the
all-zero `mp4_track_sample`, copies nothing, and leaves the demux (hence
the cursor) unchanged; with the cursor before the end, a successful call
reports the current sample's size and DTS and advances the cursor by one. -/
theorem nextSample_end_zero_and_advance (d : Demux) (tid i : Nat)
    (tk : Track) (sb mb : Option Nat)
    (hfind : findTrackIdxById d.tracks tid = some i)
    (htk : d.tracks.getD i emptyTrack = tk) :
    (tk.sampleCount ≤ tk.currentSample →
      mp4_demux_get_track_next_sample d tid sb mb =
        Except.ok (zeroTrackSample, none, none, d)) ∧
    (∀ res sOut mOut d2, tk.currentSample < tk.sampleCount →
      mp4_demux_get_track_next_sample d tid sb mb =
        Except.ok (res, sOut, mOut, d2) →
      res.sample_size = tk.sampleSize.getD tk.currentSample 0 ∧
      res.sample_dts =
        ticksToUs (tk.sampleDecodingTime.getD tk.currentSample 0)
          tk.timescale ∧
      d2.tracks =
        d.tracks.set i { tk with currentSample := tk.currentSample + 1 }) := by
  constructor
  · intro hend
    unfold mp4_demux_get_track_next_sample
    rw [hfind]
    simp only [htk]
    rw [if_neg (by omega)]
  · intro res sOut mOut d2 hlt hok
    unfold mp4_demux_get_track_next_sample at hok
    rw [hfind] at hok
    simp only [htk] at hok
    rw [if_pos hlt] at hok
    obtain ⟨a, _, h1⟩ := bind_ok_ex hok
    obtain ⟨m, _, h2⟩ := bind_ok_ex h1
    have h3 := Except.ok.inj h2
    have hres := congrArg (fun p => p.1) h3
    have hd2 := congrArg (fun p => p.2.2.2) h3
    simp only at hres hd2
    refine ⟨?_, ?_, ?_⟩
    · rw [← hres]
    · rw [← hres]
    · rw [← hd2]
      rfl

/-- A track with two samples for the `next_sample` witnesses. -/
def c8Track : Track :=
  { emptyTrack with
    id := 7, timescale := 1, sampleCount := 2,
    sampleSize := [4, 5], sampleOffset := [0, 4],
    sampleDecodingTime := [0, 1] }

def c8DemuxMid : Demux :=
  { c4Demux with file := List.replicate 9 1, tracks := [c8Track] }

def c8TrackEnd : Track := { c8Track with currentSample := 2 }

def c8DemuxEnd : Demux :=
  { c4Demux with file := List.replicate 9 1, tracks := [c8TrackEnd] }

/-- The result reported for sample 0 of `c8Track` (timescale 1). -/
def c8Res : TrackSample :=
  { sample_size := 4, metadata_size := 0, sample_dts := 0,
    next_sample_dts := 1000000 }

theorem nextSample_end_zero_and_advance_witness :
    (c8TrackEnd.sampleCount ≤ c8TrackEnd.currentSample ∧
      mp4_demux_get_track_next_sample c8DemuxEnd 7 none none =
        Except.ok (zeroTrackSample, none, none, c8DemuxEnd)) ∧
    (c8Track.currentSample < c8Track.sampleCount ∧
      c8Res.sample_size = c8Track.sampleSize.getD c8Track.currentSample 0 ∧
      c8Res.sample_dts =
        ticksToUs (c8Track.sampleDecodingTime.getD c8Track.currentSample 0)
          c8Track.timescale ∧
      (advanceCursor c8DemuxMid 0 c8Track).tracks =
        c8DemuxMid.tracks.set 0
          { c8Track with currentSample := c8Track.currentSample + 1 }) :=
  ⟨⟨by decide,
    (nextSample_end_zero_and_advance c8DemuxEnd 7 0 c8TrackEnd none none
      rfl rfl).1 (by decide)⟩,
   ⟨by decide,
    (nextSample_end_zero_and_advance c8DemuxMid 7 0 c8Track none none
      (by decide) (by decide)).2 c8Res none none
      (advanceCursor c8DemuxMid 0 c8Track) (by decide) (by decide)⟩⟩

/-- C10: `-ENOBUFS` is raised only for the sample buffer.  A provided
sample buffer smaller than the current sample fails the call; a provided
metadata buffer smaller than the linked metadata sample does not fail:
`metadata_size` is still reported, no metadata bytes are copied, and the
cursor still advances. -/
theorem nextSample_enobufs_only_for_sample_buffer (d : Demux) (tid i : Nat)
    (tk : Track)
    (hfind : findTrackIdxById d.tracks tid = some i)
    (htk : d.tracks.getD i emptyTrack = tk)
    (hlt : tk.currentSample < tk.sampleCount) :
    (∀ bs mb, bs < tk.sampleSize.getD tk.currentSample 0 →
      mp4_demux_get_track_next_sample d tid (some bs) mb =
        Except.error Err.enobufs) ∧
    (∀ ms mi, tk.metadata = some mi →
      ms < (d.tracks.getD mi emptyTrack).sampleSize.getD tk.currentSample 0 →
      mp4_demux_get_track_next_sample d tid none (some ms) =
        Except.ok
          ({ sample_size := tk.sampleSize.getD tk.currentSample 0,
             metadata_size :=
               (d.tracks.getD mi emptyTrack).sampleSize.getD
                 tk.currentSample 0,
             sample_dts :=
               ticksToUs (tk.sampleDecodingTime.getD tk.currentSample 0)
                 tk.timescale,
             next_sample_dts :=
               if tk.currentSample < tk.sampleCount - 1 then
                 ticksToUs
                   (tk.sampleDecodingTime.getD (tk.currentSample + 1) 0)
                   tk.timescale
               else 0 },
           none, none, advanceCursor d i tk)) := by
  constructor
  · intro bs mb hsmall
    unfold mp4_demux_get_track_next_sample
    rw [hfind]
    simp only [htk]
    rw [if_pos hlt]
    have hnle : ¬ tk.sampleSize.getD tk.currentSample 0 ≤ bs := by omega
    have hstep : sampleBufStep d.file (tk.sampleOffset.getD tk.currentSample 0)
        (tk.sampleSize.getD tk.currentSample 0) (some bs) =
        Except.error Err.enobufs := by
      simp only [sampleBufStep]
      rw [if_neg hnle]
    rw [hstep]
    rfl
  · intro ms mi hmi hsmall
    unfold mp4_demux_get_track_next_sample
    rw [hfind]
    simp only [htk]
    rw [if_pos hlt]
    have hnle :
        ¬ (d.tracks.getD mi emptyTrack).sampleSize.getD tk.currentSample 0
          ≤ ms := by omega
    have hmstep : metadataBufStep d.file
        ((d.tracks.getD mi emptyTrack).sampleOffset.getD tk.currentSample 0)
        ((d.tracks.getD mi emptyTrack).sampleSize.getD tk.currentSample 0)
        (some ms) = Except.ok none := by
      simp only [metadataBufStep]
      rw [if_neg hnle]
    have hmeta : metadataStep d tk.currentSample tk.metadata (some ms) =
        Except.ok
          ((d.tracks.getD mi emptyTrack).sampleSize.getD tk.currentSample 0,
           none) := by
      rw [hmi]
      simp only [metadataStep]
      rw [hmstep]
      rfl
    rw [hmeta]
    rfl

/-- A metadata track linked from `c10Track`. -/
def c10Meta : Track :=
  { emptyTrack with
    id := 8, timescale := 1, sampleCount := 2,
    sampleSize := [6, 6], sampleOffset := [0, 6],
    sampleDecodingTime := [0, 1] }

def c10Track : Track := { c8Track with metadata := some 1 }

def c10Demux : Demux :=
  { c4Demux with file := List.replicate 12 1, tracks := [c10Track, c10Meta] }

theorem nextSample_enobufs_only_for_sample_buffer_witness :
    (3 < c10Track.sampleSize.getD c10Track.currentSample 0 ∧
      mp4_demux_get_track_next_sample c10Demux 7 (some 3) none =
        Except.error Err.enobufs) ∧
    (c10Track.metadata = some 1 ∧
      5 < (c10Demux.tracks.getD 1 emptyTrack).sampleSize.getD
            c10Track.currentSample 0 ∧
      mp4_demux_get_track_next_sample c10Demux 7 none (some 5) =
        Except.ok
          ({ sample_size := 4, metadata_size := 6, sample_dts := 0,
             next_sample_dts := 1000000 },
           none, none, advanceCursor c10Demux 0 c10Track)) :=
  ⟨⟨by decide,
    (nextSample_enobufs_only_for_sample_buffer c10Demux 7 0 c10Track
      (by decide) (by decide) (by decide)).1 3 none (by decide)⟩,
   ⟨by decide, by decide,
    (nextSample_enobufs_only_for_sample_buffer c10Demux 7 0 c10Track
      (by decide) (by decide) (by decide)).2 5 1 (by decide) (by decide)⟩⟩

/-! ### C2: the Protocol error is exactly the sample-count mismatches -/

/-- The two mismatch conditions checked (with `-EPROTO`) per track by
`mp4_demux_build_tracks`. -/
def trackMismatch (tk : Track) : Prop :=
  stscExpandedCount tk.sampleToChunkEntries tk.chunkCount ≠ tk.sampleCount ∨
  sttsTotalCount tk.timeToSampleEntries ≠ tk.sampleCount

instance (tk : Track) : Decidable (trackMismatch tk) := by
  unfold trackMismatch
  infer_instance

theorem buildTrack_error_elim {tk : Track} {e : Err}
    (h : buildTrack tk = Except.error e) :
    e = Err.eproto ∧ trackMismatch tk := by
  unfold buildTrack at h
  by_cases h1 :
      stscExpandedCount tk.sampleToChunkEntries tk.chunkCount = tk.sampleCount
  · rw [if_pos h1] at h
    by_cases h2 : sttsTotalCount tk.timeToSampleEntries = tk.sampleCount
    · rw [if_pos h2] at h
      exact Except.noConfusion h
    · rw [if_neg h2] at h
      exact ⟨(Except.error.inj h).symm, Or.inr h2⟩
  · rw [if_neg h1] at h
    exact ⟨(Except.error.inj h).symm, Or.inl h1⟩

theorem buildTrack_error_of_mismatch {tk : Track} (h : trackMismatch tk) :
    buildTrack tk = Except.error Err.eproto := by
  unfold buildTrack
  by_cases h1 :
      stscExpandedCount tk.sampleToChunkEntries tk.chunkCount = tk.sampleCount
  · rw [if_pos h1]
    rcases h with h | h2
    · exact absurd h1 h
    · rw [if_neg h2]
  · rw [if_neg h1]

theorem buildTrack_ok_not_mismatch {tk tk2 : Track}
    (h : buildTrack tk = Except.ok tk2) : ¬ trackMismatch tk := by
  intro hm
  rw [buildTrack_error_of_mismatch hm] at h
  exact Except.noConfusion h

theorem bind_ok {ε α β : Type} (a : α) (f : α → Except ε β) :
    Except.bind (Except.ok a) f = f a := rfl

theorem buildAllTracks_error_elim {ts : List Track} {e : Err}
    (h : buildAllTracks ts = Except.error e) :
    e = Err.eproto ∧ ∃ tk ∈ ts, trackMismatch tk := by
  induction ts with
  | nil => exact Except.noConfusion h
  | cons t ts ih =>
    unfold buildAllTracks at h
    cases hb : buildTrack t with
    | error e2 =>
        rw [hb] at h
        have h2 : (Except.error e2 : Except Err (List Track)) = Except.error e := h
        obtain ⟨he, hm⟩ := buildTrack_error_elim hb
        exact ⟨(Except.error.inj h2) ▸ he, t, List.mem_cons_self t ts, hm⟩
    | ok t2 =>
        rw [hb] at h
        rw [bind_ok] at h
        cases hts : buildAllTracks ts with
        | error e3 =>
            rw [hts] at h
            have h2 : (Except.error e3 : Except Err (List Track)) = Except.error e := h
            obtain rfl : e3 = e := Except.error.inj h2
            obtain ⟨he, tk, htk, hm⟩ := ih hts
            exact ⟨he, tk, List.mem_cons_of_mem t htk, hm⟩
        | ok l =>
            rw [hts, bind_ok] at h
            exact Except.noConfusion h

theorem buildAllTracks_error_of_mismatch {ts : List Track}
    (h : ∃ tk ∈ ts, trackMismatch tk) :
    buildAllTracks ts = Except.error Err.eproto := by
  induction ts with
  | nil => obtain ⟨tk, htk, _⟩ := h; exact absurd htk (List.not_mem_nil tk)
  | cons t ts ih =>
    unfold buildAllTracks
    by_cases hm : trackMismatch t
    · rw [buildTrack_error_of_mismatch hm]
      rfl
    · obtain ⟨tk, htk, hmk⟩ := h
      rcases List.mem_cons.mp htk with rfl | htk2
      · exact absurd hmk hm
      · cases hb : buildTrack t with
        | error e2 => exact absurd (buildTrack_error_elim hb).2 hm
        | ok t2 =>
            rw [bind_ok, ih ⟨tk, htk2, hmk⟩]
            rfl

theorem readBytesAt_error_eio {f : List Nat} {o s : Nat} {e : Err}
    (h : readBytesAt f o s = Except.error e) : e = Err.eio := by
  unfold readBytesAt at h
  by_cases hc : 0 < s ∧ o + s ≤ f.length
  · rw [if_pos hc] at h
    exact Except.noConfusion h
  · rw [if_neg hc] at h
    exact (Except.error.inj h).symm

theorem chaptersGo_error_eio {f : List Nat} {tk : Track} {is : List Nat}
    {e : Err} (h : chaptersGo f tk is = Except.error e) : e = Err.eio := by
  induction is with
  | nil => exact Except.noConfusion h
  | cons i is ih =>
    unfold chaptersGo at h
    cases h1 : readBytesAt f (tk.sampleOffset.getD i 0) 2 with
    | error e1 =>
        rw [h1] at h
        have h2 : (Except.error e1 :
            Except Err (List (Nat × List Nat))) = Except.error e := h
        exact (Except.error.inj h2) ▸ readBytesAt_error_eio h1
    | ok szb =>
        rw [h1, bind_ok] at h
        by_cases hg :
            szb.getD 0 0 * 256 + szb.getD 1 0 ≤
              u32sub (tk.sampleSize.getD i 0) 2
        · rw [if_pos hg] at h
          cases h2 : readBytesAt f (tk.sampleOffset.getD i 0 + 2)
              (szb.getD 0 0 * 256 + szb.getD 1 0) with
          | error e2 =>
              rw [h2] at h
              have h3 : (Except.error e2 :
                  Except Err (List (Nat × List Nat))) = Except.error e := h
              exact (Except.error.inj h3) ▸ readBytesAt_error_eio h2
          | ok nm =>
              rw [h2, bind_ok] at h
              cases h3 : chaptersGo f tk is with
              | error e3 =>
                  rw [h3] at h
                  have h4 : (Except.error e3 :
                      Except Err (List (Nat × List Nat))) = Except.error e := h
                  obtain rfl : e3 = e := Except.error.inj h4
                  exact ih h3
              | ok rest =>
                  rw [h3, bind_ok] at h
                  exact Except.noConfusion h
        · rw [if_neg hg] at h
          exact ih h

/-- C2: the demux-level track build fails with the Protocol error
(`-EPROTO`) exactly when some track's stsc/stco expanded sample count or
stts sample-count total differs from the stsz `sampleCount`; any such
failure aborts `mp4_demux_open` (which frees the demux and returns NULL
on every negative return from `mp4_demux_build_tracks`). -/
theorem open_eproto_iff_sample_count_mismatch (tracks : List Track)
    (file : List Nat) :
    mp4_demux_build_tracks tracks file = Except.error Err.eproto ↔
      ∃ tk ∈ tracks, trackMismatch tk := by
  constructor
  · intro h
    unfold mp4_demux_build_tracks at h
    cases hb : buildAllTracks tracks with
    | error e =>
        obtain ⟨he, hex⟩ := buildAllTracks_error_elim hb
        exact hex
    | ok built =>
        rw [hb, bind_ok] at h
        cases hc : (linkAll built).chapIdx with
        | none =>
            rw [hc] at h
            exact Except.noConfusion h
        | some ci =>
            rw [hc] at h
            have h1 : Except.bind
                (buildChapters file
                  ((applyWorkaround (linkAll built)).getD ci emptyTrack))
                (fun chs =>
                  Except.ok (applyWorkaround (linkAll built), chs)) =
                Except.error Err.eproto := h
            cases h2 : buildChapters file
                ((applyWorkaround (linkAll built)).getD ci emptyTrack) with
            | error e2 =>
                rw [h2] at h1
                have h3 : (Except.error e2 :
                    Except Err (List Track × List (Nat × List Nat))) =
                    Except.error Err.eproto := h1
                obtain rfl : e2 = Err.eproto := Except.error.inj h3
                exact absurd (chaptersGo_error_eio h2) (by decide)
            | ok chs =>
                rw [h2, bind_ok] at h1
                exact Except.noConfusion h1
  · intro hex
    unfold mp4_demux_build_tracks
    rw [buildAllTracks_error_of_mismatch hex]
    rfl

/-! ### C3: sample ranges are not validated against the file size -/

/-- A track whose only sample lies at offset 1000 with size 100. -/
def c3Track : Track :=
  { emptyTrack with
    sampleCount := 1, sampleSize := [100],
    chunkCount := 1, chunkOffset := [1000],
    sampleToChunkEntries :=
      [{ firstChunk := 1, samplesPerChunk := 1, sampleDescriptionIndex := 1 }],
    timeToSampleEntries := [{ sampleCount := 1, sampleDelta := 1 }] }

/-- `c3Track` after track building. -/
def c3Built : Track :=
  { c3Track with sampleOffset := [1000], sampleDecodingTime := [0] }

/-- C3 counterexample: on a 10-byte file, track building succeeds while
`sample_offset[0] + sample_size[0] = 1100 > 10 = file_size` — the open
path contains no check of sample byte ranges against the file size, so the
claimed invariant fails. -/
theorem sample_range_exceeds_file_size :
    mp4_demux_build_tracks [c3Track] (List.replicate 10 0) =
      Except.ok ([c3Built], []) ∧
    c3Built.sampleOffset.getD 0 0 + c3Built.sampleSize.getD 0 0 = 1100 ∧
    (List.replicate 10 0 : List Nat).length = 10 := by
  refine ⟨by decide, by decide, by decide⟩

/-- C3 (amended): track building never consults the file (hence neither
the file size) except to read chapter names; when no chapter track was
linked, its outcome is identical for any two file contents.  Together with
the counterexample: `open()` succeeds regardless of whether sample ranges
lie within the file. -/
theorem buildTracks_independent_of_file (tracks : List Track)
    (f1 f2 : List Nat) (built : List Track)
    (hb : buildAllTracks tracks = Except.ok built)
    (hc : (linkAll built).chapIdx = none) :
    mp4_demux_build_tracks tracks f1 = mp4_demux_build_tracks tracks f2 := by
  unfold mp4_demux_build_tracks
  rw [hb, bind_ok, bind_ok, hc]

theorem buildTracks_independent_of_file_witness :
    buildAllTracks [c3Track] = Except.ok [c3Built] ∧
    (linkAll [c3Built]).chapIdx = none ∧
    mp4_demux_build_tracks [c3Track] (List.replicate 10 0) =
      mp4_demux_build_tracks [c3Track] [] :=
  ⟨by decide, by decide,
   buildTracks_independent_of_file [c3Track] (List.replicate 10 0) []
     [c3Built] (by decide) (by decide)⟩

/-! ### C6: the chapter loop has no `MP4_CHAPTERS_MAX` bound -/

/-- A file of 101 chapter samples, each 3 bytes: big-endian length 1 and
one name byte. -/
def chapFile : List Nat := (List.replicate 101 [0, 1, 97]).flatten

/-- A text track with 101 chapter samples of 3 bytes in one chunk. -/
def c6TextTrack : Track :=
  { emptyTrack with
    id := 2, typ := TrackType.text, timescale := 1,
    sampleCount := 101, sampleSize := List.replicate 101 3,
    chunkCount := 1, chunkOffset := [0],
    sampleToChunkEntries :=
      [{ firstChunk := 1, samplesPerChunk := 101,
         sampleDescriptionIndex := 1 }],
    timeToSampleEntries := [{ sampleCount := 101, sampleDelta := 1 }] }

/-- A track referencing track 2 with `chap`. -/
def c6RefTrack : Track :=
  { emptyTrack with
    id := 1, typ := TrackType.video,
    referenceType := MP4_REFERENCE_TYPE_CHAPTERS, referenceTrackId := 2 }

/-- C6: on a chapter track with 101 samples, the chapter loop of
`mp4_demux_build_tracks` records all 101 entries and succeeds — the
`chaptersCount` write index reaches 101, one past the declared
`MP4_CHAPTERS_MAX = 100` capacity of `chaptersName[]` / `chaptersTime[]`,
instead of silently truncating at 100 as the spec states. -/
theorem chapter_count_exceeds_capacity :
    (mp4_demux_build_tracks [c6RefTrack, c6TextTrack] chapFile).map
        (fun p => p.2.length) = Except.ok 101 ∧
    MP4_CHAPTERS_MAX = 100 ∧ MP4_CHAPTERS_MAX < 101 := by
  set_option maxRecDepth 10000 in
  refine ⟨by decide, by decide, by decide⟩

/-! ### C9: duplicate sample-table boxes in one `trak` -/

/-- Whether the table pointer guarding the parser of the given box kind is
already set (`stco` and `co64` share `chunkOffset`). -/
def tableSet (tk : PTrack) : SBoxKind → Bool
  | SBoxKind.stts => tk.timeToSampleEntries.isSome
  | SBoxKind.stss => tk.syncSampleEntries.isSome
  | SBoxKind.stsz => tk.sampleSize.isSome
  | SBoxKind.stsc => tk.sampleToChunkEntries.isSome
  | SBoxKind.stco => tk.chunkOffset.isSome
  | SBoxKind.co64 => tk.chunkOffset.isSome

theorem parse_dup (tk : PTrack) (b : SBox)
    (h : tableSet tk b.kind = true) :
    parseSampleBox tk b = Except.error Err.eexist := by
  obtain ⟨k, p, m⟩ := b
  cases k with
  | stts =>
      simp only [tableSet] at h
      obtain ⟨v, hv⟩ := Option.isSome_iff_exists.mp h
      simp only [parseSampleBox]
      unfold mp4_demux_parse_stts
      rw [hv]
  | stss =>
      simp only [tableSet] at h
      obtain ⟨v, hv⟩ := Option.isSome_iff_exists.mp h
      simp only [parseSampleBox]
      unfold mp4_demux_parse_stss
      rw [hv]
  | stsz =>
      simp only [tableSet] at h
      obtain ⟨v, hv⟩ := Option.isSome_iff_exists.mp h
      simp only [parseSampleBox]
      unfold mp4_demux_parse_stsz
      rw [hv]
  | stsc =>
      simp only [tableSet] at h
      obtain ⟨v, hv⟩ := Option.isSome_iff_exists.mp h
      simp only [parseSampleBox]
      unfold mp4_demux_parse_stsc
      rw [hv]
  | stco =>
      simp only [tableSet] at h
      obtain ⟨v, hv⟩ := Option.isSome_iff_exists.mp h
      simp only [parseSampleBox]
      unfold mp4_demux_parse_stco
      rw [hv]
  | co64 =>
      simp only [tableSet] at h
      obtain ⟨v, hv⟩ := Option.isSome_iff_exists.mp h
      simp only [parseSampleBox]
      unfold mp4_demux_parse_co64
      rw [hv]

theorem parse_ok_tables {tk tk2 : PTrack} {b : SBox}
    (h : parseSampleBox tk b = Except.ok tk2) :
    tableSet tk2 b.kind = true ∧
    ∀ k, tableSet tk k = true → tableSet tk2 k = true := by
  obtain ⟨kk, p, m⟩ := b
  cases kk with
  | stts =>
      simp only [parseSampleBox] at h
      unfold mp4_demux_parse_stts at h
      cases hv : tk.timeToSampleEntries with
      | some v => rw [hv] at h; exact Except.noConfusion h
      | none =>
          rw [hv] at h
          by_cases h8 : m < 8
          · rw [if_pos h8] at h; exact Except.noConfusion h
          rw [if_neg h8] at h
          obtain ⟨p1, _, h⟩ := bind_ok_ex h
          obtain ⟨p2, _, h⟩ := bind_ok_ex h
          by_cases hsz : m < (8 + p2.1 * 8) % U32
          · rw [if_pos hsz] at h; exact Except.noConfusion h
          rw [if_neg hsz] at h
          obtain ⟨pe, _, h⟩ := bind_ok_ex h
          obtain rfl := Except.ok.inj h
          exact ⟨rfl, fun k hk => by cases k <;> first | rfl | exact hk⟩
  | stss =>
      simp only [parseSampleBox] at h
      unfold mp4_demux_parse_stss at h
      cases hv : tk.syncSampleEntries with
      | some v => rw [hv] at h; exact Except.noConfusion h
      | none =>
          rw [hv] at h
          by_cases h8 : m < 8
          · rw [if_pos h8] at h; exact Except.noConfusion h
          rw [if_neg h8] at h
          obtain ⟨p1, _, h⟩ := bind_ok_ex h
          obtain ⟨p2, _, h⟩ := bind_ok_ex h
          by_cases hsz : m < (8 + p2.1 * 4) % U32
          · rw [if_pos hsz] at h; exact Except.noConfusion h
          rw [if_neg hsz] at h
          obtain ⟨pe, _, h⟩ := bind_ok_ex h
          obtain rfl := Except.ok.inj h
          exact ⟨rfl, fun k hk => by cases k <;> first | rfl | exact hk⟩
  | stsz =>
      simp only [parseSampleBox] at h
      unfold mp4_demux_parse_stsz at h
      cases hv : tk.sampleSize with
      | some v => rw [hv] at h; exact Except.noConfusion h
      | none =>
          rw [hv] at h
          by_cases h8 : m < 12
          · rw [if_pos h8] at h; exact Except.noConfusion h
          rw [if_neg h8] at h
          obtain ⟨p1, _, h⟩ := bind_ok_ex h
          obtain ⟨p2, _, h⟩ := bind_ok_ex h
          obtain ⟨p3, _, h⟩ := bind_ok_ex h
          by_cases hu : p2.1 = 0
          · rw [if_pos hu] at h
            by_cases hsz : m < (12 + p3.1 * 4) % U32
            · rw [if_pos hsz] at h; exact Except.noConfusion h
            rw [if_neg hsz] at h
            obtain ⟨ps, _, h⟩ := bind_ok_ex h
            obtain rfl := Except.ok.inj h
            exact ⟨rfl, fun k hk => by cases k <;> first | rfl | exact hk⟩
          · rw [if_neg hu] at h
            obtain rfl := Except.ok.inj h
            exact ⟨rfl, fun k hk => by cases k <;> first | rfl | exact hk⟩
  | stsc =>
      simp only [parseSampleBox] at h
      unfold mp4_demux_parse_stsc at h
      cases hv : tk.sampleToChunkEntries with
      | some v => rw [hv] at h; exact Except.noConfusion h
      | none =>
          rw [hv] at h
          by_cases h8 : m < 8
          · rw [if_pos h8] at h; exact Except.noConfusion h
          rw [if_neg h8] at h
          obtain ⟨p1, _, h⟩ := bind_ok_ex h
          obtain ⟨p2, _, h⟩ := bind_ok_ex h
          by_cases hsz : m < (8 + p2.1 * 12) % U32
          · rw [if_pos hsz] at h; exact Except.noConfusion h
          rw [if_neg hsz] at h
          obtain ⟨pe, _, h⟩ := bind_ok_ex h
          obtain rfl := Except.ok.inj h
          exact ⟨rfl, fun k hk => by cases k <;> first | rfl | exact hk⟩
  | stco =>
      simp only [parseSampleBox] at h
      unfold mp4_demux_parse_stco at h
      cases hv : tk.chunkOffset with
      | some v => rw [hv] at h; exact Except.noConfusion h
      | none =>
          rw [hv] at h
          by_cases h8 : m < 8
          · rw [if_pos h8] at h; exact Except.noConfusion h
          rw [if_neg h8] at h
          obtain ⟨p1, _, h⟩ := bind_ok_ex h
          obtain ⟨p2, _, h⟩ := bind_ok_ex h
          by_cases hsz : m < (8 + p2.1 * 4) % U32
          · rw [if_pos hsz] at h; exact Except.noConfusion h
          rw [if_neg hsz] at h
          obtain ⟨po, _, h⟩ := bind_ok_ex h
          obtain rfl := Except.ok.inj h
          exact ⟨rfl, fun k hk => by cases k <;> first | rfl | exact hk⟩
  | co64 =>
      simp only [parseSampleBox] at h
      unfold mp4_demux_parse_co64 at h
      cases hv : tk.chunkOffset with
      | some v => rw [hv] at h; exact Except.noConfusion h
      | none =>
          rw [hv] at h
          by_cases h8 : m < 8
          · rw [if_pos h8] at h; exact Except.noConfusion h
          rw [if_neg h8] at h
          obtain ⟨p1, _, h⟩ := bind_ok_ex h
          obtain ⟨p2, _, h⟩ := bind_ok_ex h
          by_cases hsz : m < (8 + p2.1 * 8) % U32
          · rw [if_pos hsz] at h; exact Except.noConfusion h
          rw [if_neg hsz] at h
          obtain ⟨po, _, h⟩ := bind_ok_ex h
          obtain rfl := Except.ok.inj h
          exact ⟨rfl, fun k hk => by cases k <;> first | rfl | exact hk⟩

theorem parseSampleBoxes_ok_inv {bs : List SBox} :
    ∀ {tk tk2 : PTrack}, parseSampleBoxes tk bs = Except.ok tk2 →
      (bs.map SBox.kind).Nodup ∧ ∀ b ∈ bs, tableSet tk b.kind = false := by
  induction bs with
  | nil => exact fun _ => ⟨by simp, by simp⟩
  | cons b bs ih =>
    intro tk tk2 h
    unfold parseSampleBoxes at h
    obtain ⟨tk1, hb, h⟩ := bind_ok_ex h
    obtain ⟨hnd, hall⟩ := ih h
    have hown : tableSet tk b.kind = false := by
      cases hbk : tableSet tk b.kind with
      | false => rfl
      | true =>
          rw [parse_dup tk b hbk] at hb
          exact Except.noConfusion hb
    refine ⟨List.nodup_cons.mpr ⟨?_, hnd⟩, ?_⟩
    · intro hmem
      obtain ⟨b2, hb2, hk2⟩ := List.mem_map.mp hmem
      have h1 := (parse_ok_tables hb).1
      rw [← hk2] at h1
      rw [hall b2 hb2] at h1
      exact Bool.noConfusion h1
    · intro b2 hb2
      rcases List.mem_cons.mp hb2 with rfl | hb2m
      · exact hown
      · cases hbk : tableSet tk b2.kind with
        | false => rfl
        | true =>
            have := (parse_ok_tables hb).2 b2.kind hbk
            rw [hall b2 hb2m] at this
            exact Bool.noConfusion this

/-- C9: processing the sample-table children of one `trak` fails with an
error whenever two boxes of the same kind occur (the second hits the
table-already-defined `-EEXIST` check instead of overwriting or merging),
and conversely after a successful parse the box kinds are pairwise
distinct: each table came from exactly one box of its kind. -/
theorem duplicate_sample_table_box_fails (boxes : List SBox) :
    (¬ (boxes.map SBox.kind).Nodup →
      ∃ e, parseSampleBoxes initPTrack boxes = Except.error e) ∧
    (∀ tk2, parseSampleBoxes initPTrack boxes = Except.ok tk2 →
      (boxes.map SBox.kind).Nodup) := by
  constructor
  · intro hdup
    cases h : parseSampleBoxes initPTrack boxes with
    | error e => exact ⟨e, rfl⟩
    | ok tk2 => exact absurd (parseSampleBoxes_ok_inv h).1 hdup
  · intro tk2 h
    exact (parseSampleBoxes_ok_inv h).1

/-- A well-formed 16-byte stts box payload: version/flags 0, one entry
`(sample_count 2, sample_delta 3)`. -/
def c9SttsBox : SBox :=
  { kind := SBoxKind.stts,
    payload := [0, 0, 0, 0, 0, 0, 0, 1, 0, 0, 0, 2, 0, 0, 0, 3],
    maxBytes := 16 }

/-- The track state after parsing one `c9SttsBox`. -/
def c9After : PTrack :=
  { initPTrack with
    timeToSampleEntryCount := 1,
    timeToSampleEntries := some [{ sampleCount := 2, sampleDelta := 3 }] }

theorem duplicate_sample_table_box_fails_witness :
    (¬ (List.map SBox.kind [c9SttsBox, c9SttsBox]).Nodup ∧
      ∃ e, parseSampleBoxes initPTrack [c9SttsBox, c9SttsBox] =
        Except.error e) ∧
    (parseSampleBoxes initPTrack [c9SttsBox] = Except.ok c9After ∧
      (List.map SBox.kind [c9SttsBox]).Nodup) :=
  ⟨⟨by decide, (duplicate_sample_table_box_fails [c9SttsBox, c9SttsBox]).1
      (by decide)⟩,
   ⟨by decide, (duplicate_sample_table_box_fails [c9SttsBox]).2 c9After
      (by decide)⟩⟩

/-! ### C1: the dense sample-offset array matches the stsc expansion

Spec-side definitions, written from the claim's words: each stsc entry
covers the chunks from its `first_chunk` up to the next entry's
`first_chunk`, and the last entry covers all chunks through the total
chunk count; a chunk not covered by any entry holds no samples. -/

/-- Samples per chunk for 1-based chunk number `c1`, where `dflt` is the
`samples_per_chunk` of the latest entry whose `first_chunk ≤ c1` seen so
far (initially 0: no entry covers `c1`). -/
def coveringSpcGen (dflt : Nat) : List StscEntry → Nat → Nat
  | [], _ => dflt
  | e :: es, c1 =>
      if c1 < e.firstChunk then dflt
      else coveringSpcGen e.samplesPerChunk es c1

/-- The claim's chunk assignment: samples per chunk for 1-based chunk
number `c1`, by expanding the stsc run-length entries in order. -/
def coveringSpc (entries : List StscEntry) (c1 : Nat) : Nat :=
  coveringSpcGen 0 entries c1

/-- Index of the first sample of 0-based chunk `c` under the claim's
chunk assignment. -/
def specChunkStart (entries : List StscEntry) (c : Nat) : Nat :=
  ((List.range c).map (fun j => coveringSpc entries (j + 1))).sum

/-- Well-formedness of an stsc table against the chunk count: `first_chunk`
values at least `lb` (initially 1), ascending, and at most `chunkCount`. -/
def stscWF (cc : Nat) : Nat → List StscEntry → Bool
  | _, [] => true
  | lb, e :: es =>
      decide (lb ≤ e.firstChunk) && decide (e.firstChunk ≤ cc) &&
        stscWF cc (e.firstChunk + 1) es

theorem U32_eq : U32 = 4294967296 := rfl

theorem U64_eq : U64 = 18446744073709551616 := rfl

theorem u32sub_eq {a b : Nat} (hba : b ≤ a) (ha : a < U32) :
    u32sub a b = a - b := by
  unfold u32sub
  rw [U32_eq] at *
  omega

theorem final_cnt_eq {cc lf : Nat} (h1 : 1 ≤ lf) (h2 : lf ≤ cc + 1)
    (hcc : cc < U32) : (u32sub cc lf + 1) % U32 = cc + 1 - lf := by
  unfold u32sub
  rw [U32_eq] at *
  omega

/-- Sum of the sizes of `k` samples starting at sample index `m`. -/
def partSum (sizes : List Nat) (m k : Nat) : Nat :=
  ((List.range k).map (fun j => sizes.getD (m + j) 0)).sum

theorem partSum_zero (sizes : List Nat) (m : Nat) : partSum sizes m 0 = 0 :=
  rfl

theorem partSum_succ_right (sizes : List Nat) (m k : Nat) :
    partSum sizes m (k + 1) = partSum sizes m k + sizes.getD (m + k) 0 := by
  unfold partSum
  rw [List.range_succ, List.map_append, List.sum_append]
  simp

theorem partSum_succ_left (sizes : List Nat) (m : Nat) :
    ∀ k, partSum sizes m (k + 1) =
      sizes.getD m 0 + partSum sizes (m + 1) k := by
  intro k
  induction k with
  | zero =>
      rw [partSum_succ_right, partSum_zero, partSum_zero, Nat.add_zero]
      omega
  | succ k ih =>
      rw [partSum_succ_right, ih, partSum_succ_right]
      have : m + 1 + k = m + (k + 1) := by omega
      rw [this]
      omega

theorem take_sum_succ (l : List Nat) : ∀ k, (l.take (k + 1)).sum =
    (l.take k).sum + l.getD k 0 := by
  induction l with
  | nil => intro k; simp [List.getD]
  | cons a l ih =>
      intro k
      cases k with
      | zero => simp
      | succ k =>
          rw [List.take_succ_cons, List.take_succ_cons, List.sum_cons,
            List.sum_cons, ih k]
          have : (a :: l).getD (k + 1) 0 = l.getD k 0 := rfl
          rw [this]
          omega

theorem getD_drop (l : List Nat) : ∀ m j, (l.drop m).getD j 0 =
    l.getD (m + j) 0 := by
  induction l with
  | nil => intro m j; simp [List.getD]
  | cons a l ih =>
      intro m j
      cases m with
      | zero => rw [Nat.zero_add]; rfl
      | succ m =>
          have h1 : (a :: l).drop (m + 1) = l.drop m := rfl
          have h3 : m + 1 + j = m + j + 1 := by omega
          have h2 : (a :: l).getD (m + j + 1) 0 = l.getD (m + j) 0 := rfl
          rw [h1, h3, h2, ih m j]

theorem partSum_eq_take_drop (sizes : List Nat) (m : Nat) :
    ∀ k, partSum sizes m k = ((sizes.drop m).take k).sum := by
  intro k
  induction k with
  | zero => rw [partSum_zero]; simp
  | succ k ih =>
      rw [partSum_succ_right, take_sum_succ, ih, getD_drop]

theorem sum_take_le (l : List Nat) (k : Nat) : (l.take k).sum ≤ l.sum := by
  conv_rhs => rw [← List.take_append_drop k l]
  rw [List.sum_append]
  omega

theorem sum_drop_le (l : List Nat) (m : Nat) : (l.drop m).sum ≤ l.sum := by
  conv_rhs => rw [← List.take_append_drop m l]
  rw [List.sum_append]
  omega

theorem partSum_le_sum (sizes : List Nat) (m k : Nat) :
    partSum sizes m k ≤ sizes.sum := by
  rw [partSum_eq_take_drop]
  exact le_trans (sum_take_le _ k) (sum_drop_le sizes m)

theorem getD_lt_of_forall {l : List Nat} {bound : Nat} (h0 : 0 < bound)
    (h : ∀ x ∈ l, x < bound) (i : Nat) : l.getD i 0 < bound := by
  rw [List.getD_eq_get?]
  cases hg : l.get? i with
  | none => exact h0
  | some x =>
      have hm : x ∈ l := by
        obtain ⟨hlt, hget⟩ := List.get?_eq_some.mp hg
        exact hget ▸ List.get_mem l i hlt
      exact h x hm

/-- The chunk-by-chunk view of the offset fill: one `fillChunkSamples` per
chunk, each chunk's samples-per-chunk given by the list `spcs`. -/
def fillFlat (sizes chunkOffs : List Nat) : List Nat → Nat → Nat → List Nat
  | [], _, _ => []
  | spc :: spcs, chunkIdx, n =>
      fillChunkSamples sizes (chunkOffs.getD chunkIdx 0) spc n 0 ++
        fillFlat sizes chunkOffs spcs (chunkIdx + 1) (n + spc)

theorem fillChunkSamples_length (sizes : List Nat) (off : Nat) :
    ∀ spc n acc, (fillChunkSamples sizes off spc n acc).length = spc := by
  intro spc
  induction spc with
  | zero => intro n acc; rfl
  | succ spc ih =>
      intro n acc
      unfold fillChunkSamples
      rw [List.length_cons, ih]

theorem fillChunkSamples_get (sizes : List Nat) (off : Nat) :
    ∀ spc k n acc, k < spc →
      (fillChunkSamples sizes off spc n acc).get? k =
        some ((off + acc + partSum sizes n k) % U64) := by
  intro spc
  induction spc with
  | zero => intro k n acc hk; omega
  | succ spc ih =>
      intro k n acc hk
      unfold fillChunkSamples
      cases k with
      | zero =>
          rw [partSum_zero]
          rfl
      | succ k =>
          have hks : k < spc := by omega
          have h1 := ih k (n + 1) ((acc + sizes.getD n 0) % U64) hks
          rw [List.get?_cons_succ, h1]
          rw [partSum_succ_left]
          rw [U64_eq]
          congr 1
          omega

theorem fillRun_eq_fillFlat (sizes co : List Nat) (spc : Nat) :
    ∀ cnt ci n, fillRun sizes co spc cnt ci n =
      fillFlat sizes co (List.replicate cnt spc) ci n := by
  intro cnt
  induction cnt with
  | zero => intro ci n; rfl
  | succ cnt ih =>
      intro ci n
      unfold fillRun
      rw [List.replicate_succ]
      unfold fillFlat
      rw [ih]

theorem fillFlat_append (sizes co : List Nat) :
    ∀ (l1 l2 : List Nat) (ci n : Nat),
      fillFlat sizes co (l1 ++ l2) ci n =
        fillFlat sizes co l1 ci n ++
          fillFlat sizes co l2 (ci + l1.length) (n + l1.sum) := by
  intro l1
  induction l1 with
  | nil => intro l2 ci n; simp [fillFlat]
  | cons spc l1 ih =>
      intro l2 ci n
      rw [List.cons_append]
      simp only [fillFlat]
      rw [ih, List.append_assoc, List.length_cons, List.sum_cons]
      have h1 : ci + 1 + l1.length = ci + (l1.length + 1) := by omega
      have h2 : n + spc + l1.sum = n + (spc + l1.sum) := by omega
      rw [h1, h2]

theorem sum_replicate_nat (a : Nat) : ∀ n, (List.replicate n a).sum = n * a := by
  intro n
  induction n with
  | zero => simp
  | succ n ih =>
      rw [List.replicate_succ, List.sum_cons, ih, Nat.succ_mul]
      omega

theorem fillFlat_get (sizes co : List Nat)
    (hco : ∀ x ∈ co, x < 2 ^ 63) (hsz : sizes.sum < 2 ^ 63) :
    ∀ (spcs : List Nat) (c ci n k : Nat), c < spcs.length →
      k < spcs.getD c 0 →
      (fillFlat sizes co spcs ci n).get? ((spcs.take c).sum + k) =
        some (co.getD (ci + c) 0 + partSum sizes (n + (spcs.take c).sum) k) := by
  intro spcs
  induction spcs with
  | nil => intro c ci n k hc _; simp at hc
  | cons spc spcs ih =>
      intro c ci n k hc hk
      simp only [fillFlat]
      cases c with
      | zero =>
          have hk0 : k < spc := hk
          rw [List.take_zero, List.sum_nil, Nat.zero_add, Nat.add_zero,
            Nat.add_zero]
          rw [List.get?_append
            (by rw [fillChunkSamples_length]; exact hk0)]
          rw [fillChunkSamples_get sizes _ spc k n 0 hk0]
          have hoff : co.getD ci 0 < 2 ^ 63 :=
            getD_lt_of_forall (by norm_num) hco ci
          have hps : partSum sizes n k < 2 ^ 63 :=
            lt_of_le_of_lt (partSum_le_sum sizes n k) hsz
          rw [Nat.add_zero, U64_eq]
          rw [Nat.mod_eq_of_lt (by omega)]
          simp
      | succ c =>
          have hc2 : c < spcs.length := by
            rw [List.length_cons] at hc
            omega
          have hk2 : k < spcs.getD c 0 := hk
          rw [List.take_succ_cons, List.sum_cons]
          rw [List.get?_append_right
            (by rw [fillChunkSamples_length]; omega)]
          rw [fillChunkSamples_length]
          have hidx : spc + (spcs.take c).sum + k - spc =
              (spcs.take c).sum + k := by omega
          rw [hidx, ih c (ci + 1) (n + spc) k hc2 hk2]
          have h1 : ci + 1 + c = ci + (c + 1) := by omega
          have h2 : n + spc + (spcs.take c).sum =
              n + (spc + (spcs.take c).sum) := by omega
          rw [h1, h2]

/-- The per-chunk samples-per-chunk list produced by the entry loop:
for each entry, `firstChunk - lastFirstChunk` chunks of the previous
entry's count, then the final `chunkCount - lastFirstChunk + 1` chunks. -/
def chunkSpcs (cc : Nat) : List StscEntry → Nat → Nat → List Nat
  | [], lastFirst, lastSpc => List.replicate (cc + 1 - lastFirst) lastSpc
  | e :: es, lastFirst, lastSpc =>
      List.replicate (e.firstChunk - lastFirst) lastSpc ++
        chunkSpcs cc es e.firstChunk e.samplesPerChunk

theorem stscWF_elim {cc lb : Nat} {e : StscEntry} {es : List StscEntry}
    (h : stscWF cc lb (e :: es) = true) :
    lb ≤ e.firstChunk ∧ e.firstChunk ≤ cc ∧
      stscWF cc (e.firstChunk + 1) es = true := by
  unfold stscWF at h
  rw [Bool.and_eq_true, Bool.and_eq_true] at h
  exact ⟨of_decide_eq_true h.1.1, of_decide_eq_true h.1.2, h.2⟩

theorem stscWF_mono {cc : Nat} {es : List StscEntry} {lb lb2 : Nat}
    (hle : lb2 ≤ lb) (h : stscWF cc lb es = true) :
    stscWF cc lb2 es = true := by
  cases es with
  | nil => rfl
  | cons e es =>
      obtain ⟨h1, h2, h3⟩ := stscWF_elim h
      unfold stscWF
      rw [Bool.and_eq_true, Bool.and_eq_true]
      exact ⟨⟨decide_eq_true (by omega), decide_eq_true h2⟩, h3⟩

theorem fillEntries_eq_fillFlat (sizes co : List Nat) (cc : Nat)
    (hcc : cc < U32) :
    ∀ (entries : List StscEntry) (lf lspc ci n : Nat),
      1 ≤ lf → lf ≤ cc + 1 → stscWF cc lf entries = true →
      fillEntries sizes co cc entries lf lspc ci n =
        fillFlat sizes co (chunkSpcs cc entries lf lspc) ci n := by
  intro entries
  induction entries with
  | nil =>
      intro lf lspc ci n h1 h2 _
      unfold fillEntries chunkSpcs
      rw [final_cnt_eq h1 h2 hcc, fillRun_eq_fillFlat]
  | cons e es ih =>
      intro lf lspc ci n h1 h2 hwf
      obtain ⟨he1, he2, hwf2⟩ := stscWF_elim hwf
      have hcnt : u32sub e.firstChunk lf = e.firstChunk - lf :=
        u32sub_eq he1 (by omega)
      unfold fillEntries chunkSpcs
      rw [hcnt, fillRun_eq_fillFlat, fillFlat_append]
      rw [List.length_replicate, sum_replicate_nat]
      rw [ih e.firstChunk e.samplesPerChunk (ci + (e.firstChunk - lf))
        (n + (e.firstChunk - lf) * lspc) (by omega) (by omega)
        (stscWF_mono (by omega) hwf2)]

theorem coveringSpcGen_nil (dflt c1 : Nat) :
    coveringSpcGen dflt [] c1 = dflt := rfl

theorem chunkSpcs_eq_spec (cc : Nat) :
    ∀ (entries : List StscEntry) (lf lspc : Nat),
      1 ≤ lf → lf ≤ cc + 1 → stscWF cc lf entries = true →
      chunkSpcs cc entries lf lspc =
        (List.range (cc + 1 - lf)).map
          (fun c => coveringSpcGen lspc entries (lf + c)) := by
  intro entries
  induction entries with
  | nil =>
      intro lf lspc h1 h2 _
      unfold chunkSpcs
      simp only [coveringSpcGen_nil]
      rw [List.map_const', List.length_range]
  | cons e es ih =>
      intro lf lspc h1 h2 hwf
      obtain ⟨he1, he2, hwf2⟩ := stscWF_elim hwf
      unfold chunkSpcs
      have hsplit : cc + 1 - lf =
          (e.firstChunk - lf) + (cc + 1 - e.firstChunk) := by omega
      rw [hsplit, List.range_add, List.map_append, List.map_map]
      have hpart1 : ∀ c ∈ List.range (e.firstChunk - lf),
          coveringSpcGen lspc (e :: es) (lf + c) = lspc := by
        intro c hcmem
        have hclt : c < e.firstChunk - lf := List.mem_range.mp hcmem
        simp only [coveringSpcGen]
        rw [if_pos (by omega)]
      have hpart2 : ∀ c ∈ List.range (cc + 1 - e.firstChunk),
          coveringSpcGen e.samplesPerChunk es (e.firstChunk + c) =
            ((fun c => coveringSpcGen lspc (e :: es) (lf + c)) ∘
              (fun x => (e.firstChunk - lf) + x)) c := by
        intro c _
        simp only [Function.comp, coveringSpcGen]
        rw [if_neg (by omega)]
        have heq : lf + ((e.firstChunk - lf) + c) = e.firstChunk + c := by
          omega
        rw [heq]
      rw [List.map_congr_left hpart1, List.map_const', List.length_range]
      rw [ih e.firstChunk e.samplesPerChunk (by omega) (by omega)
        (stscWF_mono (by omega) hwf2)]
      rw [List.map_congr_left hpart2]

theorem buildTrack_ok_offsets {tk tk2 : Track}
    (h : buildTrack tk = Except.ok tk2) :
    tk2.sampleOffset =
      fillEntries tk.sampleSize tk.chunkOffset tk.chunkCount
        tk.sampleToChunkEntries 1 0 0 0 := by
  unfold buildTrack at h
  by_cases h1 :
      stscExpandedCount tk.sampleToChunkEntries tk.chunkCount = tk.sampleCount
  · rw [if_pos h1] at h
    by_cases h2 : sttsTotalCount tk.timeToSampleEntries = tk.sampleCount
    · rw [if_pos h2] at h
      obtain rfl := Except.ok.inj h
      rfl
    · rw [if_neg h2] at h
      exact Except.noConfusion h
  · rw [if_neg h1] at h
    exact Except.noConfusion h

/-- C1: after a successful track build, the dense sample-offset array
satisfies the claimed shape: for chunk `c` (0-based) and the `k`-th sample
of that chunk — chunks assigned to samples by expanding the stsc entries
in order, per `coveringSpc` — the sample's offset is the chunk's offset
from stco/co64 plus the sum of the sizes of the samples preceding it
within the same chunk.  The well-formedness hypotheses say the stsc table
is ascending with `first_chunk` values in `[1, chunkCount]`, the chunk
count fits `uint32`, and offsets/sizes are small enough that the
`uint64` arithmetic of the fill loop cannot wrap. -/
theorem sample_offset_eq_chunk_plus_preceding (tk tk2 : Track)
    (hwf : stscWF tk.chunkCount 1 tk.sampleToChunkEntries = true)
    (hcc : tk.chunkCount < U32)
    (hco : ∀ x ∈ tk.chunkOffset, x < 2 ^ 63)
    (hsz : tk.sampleSize.sum < 2 ^ 63)
    (hb : buildTrack tk = Except.ok tk2) :
    ∀ c k, c < tk.chunkCount →
      k < coveringSpc tk.sampleToChunkEntries (c + 1) →
      tk2.sampleOffset.get?
          (specChunkStart tk.sampleToChunkEntries c + k) =
        some (tk.chunkOffset.getD c 0 +
          ((tk.sampleSize.take
              (specChunkStart tk.sampleToChunkEntries c + k)).drop
            (specChunkStart tk.sampleToChunkEntries c)).sum) := by
  intro c k hc hk
  rw [buildTrack_ok_offsets hb]
  rw [fillEntries_eq_fillFlat tk.sampleSize tk.chunkOffset tk.chunkCount hcc
    tk.sampleToChunkEntries 1 0 0 0 le_rfl (by omega) hwf]
  rw [chunkSpcs_eq_spec tk.chunkCount tk.sampleToChunkEntries 1 0 le_rfl
    (by omega) hwf]
  simp only [Nat.add_sub_cancel]
  have hfl : ∀ j, (fun cj => coveringSpcGen 0 tk.sampleToChunkEntries
      (1 + cj)) j = coveringSpc tk.sampleToChunkEntries (j + 1) := by
    intro j
    unfold coveringSpc
    rw [Nat.add_comm]
  have hmap : (List.range tk.chunkCount).map
      (fun cj => coveringSpcGen 0 tk.sampleToChunkEntries (1 + cj)) =
      (List.range tk.chunkCount).map
        (fun j => coveringSpc tk.sampleToChunkEntries (j + 1)) :=
    List.map_congr_left (fun j _ => hfl j)
  rw [hmap]
  have htake : (((List.range tk.chunkCount).map
      (fun j => coveringSpc tk.sampleToChunkEntries (j + 1))).take c).sum =
      specChunkStart tk.sampleToChunkEntries c := by
    rw [← List.map_take, List.take_range, min_eq_left (le_of_lt hc)]
    rfl
  have hlen : c < ((List.range tk.chunkCount).map
      (fun j => coveringSpc tk.sampleToChunkEntries (j + 1))).length := by
    rw [List.length_map, List.length_range]
    exact hc
  have hgetD : ((List.range tk.chunkCount).map
      (fun j => coveringSpc tk.sampleToChunkEntries (j + 1))).getD c 0 =
      coveringSpc tk.sampleToChunkEntries (c + 1) := by
    rw [List.getD_eq_get?, List.get?_map, List.get?_range hc]
    rfl
  have key := fillFlat_get tk.sampleSize tk.chunkOffset hco hsz
    ((List.range tk.chunkCount).map
      (fun j => coveringSpc tk.sampleToChunkEntries (j + 1)))
    c 0 0 k hlen (by rw [hgetD]; exact hk)
  rw [htake] at key
  rw [key, Nat.zero_add, Nat.zero_add]
  rw [partSum_eq_take_drop, List.drop_take]
  have hk2 : specChunkStart tk.sampleToChunkEntries c + k -
      specChunkStart tk.sampleToChunkEntries c = k := by omega
  rw [hk2]

/-- A track with two stsc runs: chunks 1-2 hold 2 samples each, chunks 3-4
hold 1 sample each. -/
def c1Track : Track :=
  { emptyTrack with
    sampleCount := 6, sampleSize := [10, 20, 30, 40, 50, 60],
    chunkCount := 4, chunkOffset := [100, 200, 300, 400],
    sampleToChunkEntries :=
      [{ firstChunk := 1, samplesPerChunk := 2, sampleDescriptionIndex := 1 },
       { firstChunk := 3, samplesPerChunk := 1, sampleDescriptionIndex := 1 }],
    timeToSampleEntries := [{ sampleCount := 6, sampleDelta := 1 }] }

def c1Built : Track :=
  { c1Track with
    sampleOffset := [100, 110, 200, 230, 300, 400],
    sampleDecodingTime := [0, 1, 2, 3, 4, 5] }

theorem sample_offset_eq_chunk_plus_preceding_witness :
    stscWF c1Track.chunkCount 1 c1Track.sampleToChunkEntries = true ∧
    buildTrack c1Track = Except.ok c1Built ∧
    c1Built.sampleOffset.get?
        (specChunkStart c1Track.sampleToChunkEntries 1 + 1) =
      some (c1Track.chunkOffset.getD 1 0 +
        ((c1Track.sampleSize.take
            (specChunkStart c1Track.sampleToChunkEntries 1 + 1)).drop
          (specChunkStart c1Track.sampleToChunkEntries 1)).sum) :=
  ⟨by decide, by decide,
   sample_offset_eq_chunk_plus_preceding c1Track c1Built (by decide)
     (by decide) (by decide) (by decide) (by decide) 1 1 (by decide)
     (by decide)⟩

end Mp4
